import Mathlib

/-!
Verification of the document-mutation core of the pdf-editor-tool repository.

The embedding models:
  * JS strings as lists of characters, with the string operations the source
    uses (split, trim, startsWith, parseInt);
  * a PDF byte buffer, as seen through the external codec (pdf-lib), as a
    list of Page records carrying rotation angle, page size, crop box and
    drawn text (the codec is an external collaborator; its page-collection
    view is modelled from the spec's codec contract in section 6);
  * the pure functions of src/src/utils/pdfUtils.ts (parseMergeRules,
    rotatePages, extractPages, reorderPages, splitPDF, mergePDFs, cropPage,
    addTextToPage, initializePages);
  * the App-level mutation handlers of src/src/App.tsx (rotate, delete,
    move, crop, text burn-in, upload) as state transformers on a document
    record; a handler that in the source catches an error or returns early
    without touching state is modelled as returning none.

Numbers are modelled as Int (page indices, rotation degrees) and as ℚ
(coordinates and scale factors, where the source does real arithmetic).
-/

/-- Whitespace test used by the model of JS String.prototype.trim
(the source trims tokens of the range string). -/
def isWsChar (c : Char) : Bool :=
  c = ' ' || c = '\t' || c = '\n' || c = '\r'

/-- Model of JS String.prototype.trim: drop whitespace at both ends. -/
def trimC (s : List Char) : List Char :=
  ((s.dropWhile isWsChar).reverse.dropWhile isWsChar).reverse

/-- Model of JS String.prototype.split with a one-character separator:
splitting the empty string yields one empty piece, and consecutive
separators yield empty pieces, exactly as in JS. -/
def splitOnC (sep : Char) : List Char → List (List Char)
  | [] => [[]]
  | c :: cs =>
    match splitOnC sep cs with
    | [] => [[c]]
    | r :: rs => if c = sep then [] :: r :: rs else (c :: r) :: rs

/-- Model of JS String.prototype.startsWith: startsWithC pat s is true
when pat is an initial segment of s. -/
def startsWithC : List Char → List Char → Bool
  | [], _ => true
  | _ :: _, [] => false
  | p :: ps, c :: cs => p = c && startsWithC ps cs

/-- Decimal value of a list of digit characters, most significant first. -/
def digitsVal (ds : List Char) : Nat :=
  ds.foldl (fun a c => 10 * a + (c.toNat - '0'.toNat)) 0

/-- Longest decimal-digit run at the head of the string, as a number;
none when there is no leading digit (JS parseInt returns NaN then). -/
def parseDigitsPart (s : List Char) : Option Nat :=
  let ds := s.takeWhile (fun c => c.isDigit)
  if ds.isEmpty then none else some (digitsVal ds)

/-- Model of JS parseInt(s, 10): skip leading whitespace, read an optional
sign, then the longest digit run; NaN (here: none) when no digit follows. -/
def parseIntJS (s : List Char) : Option Int :=
  match s.dropWhile isWsChar with
  | [] => none
  | c :: rest =>
    if c = '-' then (parseDigitsPart rest).map (fun n => -(n : Int))
    else if c = '+' then (parseDigitsPart rest).map (fun n => (n : Int))
    else (parseDigitsPart (c :: rest)).map (fun n => (n : Int))

/-- A zero-based inclusive page range, src/src/types (interface MergeRule).
The source field named end is called stop here because end is a Lean
keyword. -/
structure MergeRule where
  start : Int
  stop : Int
deriving DecidableEq, Repr

/-- The per-token branch of parseMergeRules (src/src/utils/pdfUtils.ts,
lines 211 to 226): a token containing a hyphen is a 1-based range a-b,
kept only when both sides parse and 0 <= start <= end < maxPage after the
shift to zero-based; a token without a hyphen is a single page, kept only
when in range. The JS destructuring takes the first two hyphen-separated
segments; a missing second segment is undefined, whose parseInt is NaN,
modelled by parsing the empty string. -/
def ruleOfToken (maxPage : Int) (part : List Char) : Option MergeRule :=
  if part.contains '-' then
    match (parseIntJS (((splitOnC '-' part).map trimC).getD 0 [])).map (fun n => n - 1),
          (parseIntJS (((splitOnC '-' part).map trimC).getD 1 [])).map (fun n => n - 1) with
    | some s, some e =>
      if 0 ≤ s ∧ e < maxPage ∧ s ≤ e then some ⟨s, e⟩ else none
    | _, _ => none
  else
    match (parseIntJS part).map (fun n => n - 1) with
    | some p => if 0 ≤ p ∧ p < maxPage then some ⟨p, p⟩ else none
    | none => none

/-- The accumulation loop of parseMergeRules: rules are pushed onto the
result array in token order. -/
def pmrGo (maxPage : Int) : List (List Char) → List MergeRule → List MergeRule
  | [], rules => rules
  | part :: rest, rules => pmrGo maxPage rest (rules ++ (ruleOfToken maxPage part).toList)

/-- Model of parseMergeRules (src/src/utils/pdfUtils.ts, lines 207 to 229):
split the input on commas, trim each token, drop empty tokens, then keep
one validated zero-based rule per surviving token. -/
def parseMergeRules (input : List Char) (maxPage : Int) : List MergeRule :=
  pmrGo maxPage (((splitOnC ',' input).map trimC).filter (fun s => !s.isEmpty)) []

/-- One drawn text item burnt into a page by the codec's drawText
(spec section 6: PageHandle.drawText(text, x, y, size, font, color)).
Color components are the normalized values the source passes to rgb. -/
structure DrawnText where
  text : List Char
  x : ℚ
  y : ℚ
  size : ℚ
  r : ℚ
  g : ℚ
  b : ℚ
deriving DecidableEq, Repr

/-- A rectangle in preview or PDF coordinates (x, y, width, height). -/
structure CropRect where
  x : ℚ
  y : ℚ
  w : ℚ
  h : ℚ
deriving DecidableEq, Repr

/-- One page of a loaded PDF document, as exposed by the external codec
(spec section 6: rotation, size, crop box, drawn text). A byte buffer is
modelled as the list of its pages; mutation operations load the buffer,
edit pages and save, which the model renders as list transformations. -/
structure Page where
  rotation : Int
  width : ℚ
  height : ℚ
  cropBox : Option CropRect
  texts : List DrawnText
deriving DecidableEq, Repr

/-- Add d degrees to the rotation of the page at position n, leaving the
list unchanged when n is out of range (never reached by rotatePages,
which checks the range first). -/
def rotAt (d : Int) : Nat → List Page → List Page
  | _, [] => []
  | 0, p :: ps => { p with rotation := p.rotation + d } :: ps
  | n + 1, p :: ps => p :: rotAt d n ps

/-- The forEach loop of rotatePages: len is the page count of the loaded
document (fixed before the loop); an entry that is NaN (none) or out of
the range [0, len) is silently skipped. -/
def rotGo (len : Nat) (degrees : Int) : List (Option Int) → List Page → List Page
  | [], pgs => pgs
  | oi :: rest, pgs =>
    rotGo len degrees rest
      (match oi with
       | some i => if 0 ≤ i ∧ i < (len : Int) then rotAt degrees i.toNat pgs else pgs
       | none => pgs)

/-- Model of rotatePages (src/src/utils/pdfUtils.ts, lines 67 to 83):
for each index entry in order, when it is a number inside [0, pageCount),
set that page's rotation to its current rotation plus degrees. -/
def rotatePages (pages : List Page) (pageIndices : List (Option Int)) (degrees : Int) : List Page :=
  rotGo pages.length degrees pageIndices pages

/-- Option-valued sequencing of lookups, modelling copyPages: the codec
throws on the first out-of-range index, so the whole operation fails. -/
def mapMO (f : α → Option β) : List α → Option (List β)
  | [] => some []
  | a :: l =>
    match f a, mapMO f l with
    | some b, some bs => some (b :: bs)
    | _, _ => none

/-- Model of extractPages (src/src/utils/pdfUtils.ts, lines 154 to 165):
a new document holding copies of the source pages at the given indices in
the given order; none when some index is out of range (copyPages throws). -/
def extractPages (pages : List Page) (pageIndices : List Nat) : Option (List Page) :=
  mapMO (fun i => pages.get? i) pageIndices

/-- Model of reorderPages (src/src/utils/pdfUtils.ts, lines 167 to 178):
the source body is identical to extractPages with the index list named
newOrder. -/
def reorderPages (pages : List Page) (newOrder : List Nat) : Option (List Page) :=
  mapMO (fun i => pages.get? i) newOrder

/-- The inclusive integer range [a, b] built by the for loop of splitPDF;
empty when b < a. -/
def intRange (a b : Int) : List Int :=
  (List.range (b + 1 - a).toNat).map (fun (k : Nat) => a + (k : Int))

/-- Page lookup at a signed index, as copyPages sees it: negative or
too-large indices make the codec throw (none). -/
def getAtInt (pages : List Page) (i : Int) : Option Page :=
  if i < 0 then none else pages.get? i.toNat

/-- Model of splitPDF (src/src/utils/pdfUtils.ts, lines 115 to 137):
for each range, one new document holding the source pages from start to
end inclusive; none when a range reaches outside the document. -/
def splitPDF (pages : List Page) (ranges : List MergeRule) : Option (List (List Page)) :=
  mapMO (fun r => mapMO (getAtInt pages) (intRange r.start r.stop)) ranges

/-- Model of mergePDFs (src/src/utils/pdfUtils.ts, lines 139 to 152):
one new document holding every page of every input buffer in input order
(the model's buffers are page lists already, so loading cannot fail). -/
def mergePDFs (buffers : List (List Page)) : List Page :=
  buffers.flatten

/-- Replace the crop box of the page at position n. -/
def setCropAt (box : CropRect) : Nat → List Page → List Page
  | _, [] => []
  | 0, p :: ps => { p with cropBox := some box } :: ps
  | n + 1, p :: ps => p :: setCropAt box n ps

/-- The coordinate mapping as the spec states it (section 4.3, crop row):
scaleX = actualPageWidth/previewWidth, scaleY = actualPageHeight/previewHeight,
mapped rectangle (x*scaleX, pageH - (y+h)*scaleY, w*scaleX, h*scaleY).
Stated separately so the code's computation can be compared with it. -/
def cropMapSpec (pageW pageH previewW previewH : ℚ) (box : CropRect) : CropRect :=
  ⟨box.x * (pageW / previewW),
   pageH - (box.y + box.h) * (pageH / previewH),
   box.w * (pageW / previewW),
   box.h * (pageH / previewH)⟩

/-- Model of cropPage (src/src/utils/pdfUtils.ts, lines 180 to 205):
read the actual page size, scale the preview rectangle, flip vertically,
and set the page's crop box; none when pageIndex is out of range (the
source would dereference undefined). -/
def cropPage (pages : List Page) (pageIndex : Nat) (cropBox : CropRect)
    (pageWidth pageHeight : ℚ) : Option (List Page) :=
  match pages.get? pageIndex with
  | none => none
  | some page =>
    let scaleX := page.width / pageWidth
    let scaleY := page.height / pageHeight
    let x := cropBox.x * scaleX
    let y := page.height - (cropBox.y + cropBox.h) * scaleY
    let w := cropBox.w * scaleX
    let h := cropBox.h * scaleY
    some (setCropAt ⟨x, y, w, h⟩ pageIndex pages)

/-- Hexadecimal digit test for the model of JS parseInt(s, 16). -/
def isHexC (c : Char) : Bool :=
  c.isDigit || ('a' ≤ c && c ≤ 'f') || ('A' ≤ c && c ≤ 'F')

/-- Value of one hexadecimal digit character. -/
def hexDigitVal (c : Char) : Nat :=
  if c.isDigit then c.toNat - '0'.toNat
  else if 'a' ≤ c && c ≤ 'f' then c.toNat - 'a'.toNat + 10
  else c.toNat - 'A'.toNat + 10

/-- Model of JS parseInt(s, 16) on an already-clean slice: value of the
longest leading hexadecimal-digit run, NaN (none) when there is none. -/
def parseHexJS (s : List Char) : Option Nat :=
  let ds := s.takeWhile isHexC
  if ds.isEmpty then none else some (ds.foldl (fun a c => 16 * a + hexDigitVal c) 0)

/-- Model of JS String.prototype.replace with a one-character pattern and
empty replacement: remove the first occurrence only. -/
def replaceFirst (pat : Char) : List Char → List Char
  | [] => []
  | c :: cs => if c = pat then cs else c :: replaceFirst pat cs

/-- One normalized color component of addTextToPage:
parseInt(hexColor.substring(off, off+2), 16) / 255. The source feeds the
result to rgb, which throws when the component is NaN, so a malformed hex
digit pair aborts the operation (none). -/
def colorComp (hex : List Char) (off : Nat) : Option ℚ :=
  (parseHexJS ((hex.drop off).take 2)).map (fun n => (n : ℚ) / 255)

/-- A pending text annotation (src/src/types, interface TextAnnotation);
only the fields read by addTextToPage are modelled (id, fontFamily,
rotation, width and height are never read by the burn-in). -/
structure TextA where
  text : List Char
  x : ℚ
  y : ℚ
  fontSize : ℚ
  color : List Char
deriving DecidableEq, Repr

/-- One drawText call of addTextToPage: hex color minus its first hash
sign, components r, g, b from successive digit pairs, draw position
(x, pageHeight - y - fontSize). -/
def burnOne (pageHeight : ℚ) (ann : TextA) : Option DrawnText :=
  let hex := replaceFirst '#' ann.color
  match colorComp hex 0, colorComp hex 2, colorComp hex 4 with
  | some r, some g, some b =>
    some ⟨ann.text, ann.x, pageHeight - ann.y - ann.fontSize, ann.fontSize, r, g, b⟩
  | _, _, _ => none

/-- Append drawn text to the page at position n. -/
def addTextsAt (ts : List DrawnText) : Nat → List Page → List Page
  | _, [] => []
  | 0, p :: ps => { p with texts := p.texts ++ ts } :: ps
  | n + 1, p :: ps => p :: addTextsAt ts n ps

/-- Model of addTextToPage (src/src/utils/pdfUtils.ts, lines 85 to 113):
draw every annotation on the page at pageIndex, in order; none when the
page index is out of range or some color fails to parse (rgb throws). -/
def addTextToPage (pages : List Page) (pageIndex : Nat) (anns : List TextA) : Option (List Page) :=
  match pages.get? pageIndex with
  | none => none
  | some page =>
    (mapMO (burnOne page.height) anns).map (fun ds => addTextsAt ds pageIndex pages)

/-- The page metadata record of the UI model (src/src/types,
interface PDFPageData); the thumbnail, an opaque rasterizer image, is not
modelled, and pending crop boxes are never stored there by the source. -/
structure PageData where
  pageIndex : Nat
  rotation : Int
  selected : Bool
  annots : List TextA
deriving DecidableEq, Repr

/-- Model of initializePages (src/src/utils/pdfUtils.ts, lines 236 to 243):
pageCount fresh records with pageIndex i, rotation 0, nothing selected,
no pending text. -/
def initPages (pageCount : Nat) : List PageData :=
  (List.range pageCount).map (fun i => ⟨i, 0, false, []⟩)

/-- Map with the element position, modelling Array.prototype.map((x, i) => ...). -/
def mapIdxGo (f : Nat → α → β) : Nat → List α → List β
  | _, [] => []
  | n, a :: l => f n a :: mapIdxGo f (n + 1) l

/-- Map with the element position, starting at 0. -/
def mapWithIdx (f : Nat → α → β) (l : List α) : List β :=
  mapIdxGo f 0 l

/-- A loaded document of the App state (src/src/types,
interface PDFDocument): id, name, current byte buffer (its page list),
page count, page metadata. -/
structure AppDoc where
  id : List Char
  name : List Char
  buffer : List Page
  pageCount : Nat
  pages : List PageData
deriving DecidableEq, Repr

/-- The page-index extraction the App applies to one selection key:
parseInt(key.split('-')[1], 10). When the key has no second
hyphen-separated segment the JS index access yields undefined, whose
parseInt is NaN (none). -/
def jsKeyIdx (key : List Char) : Option Int :=
  match (splitOnC '-' key).get? 1 with
  | some s => parseIntJS s
  | none => none

/-- Model of the upload path of handleFileUpload (src/src/App.tsx,
lines 61 to 80) for one successfully loaded file: page count from the
rasterizer (the buffer's page count), fresh page metadata. -/
def uploadDoc (id name : List Char) (buffer : List Page) : AppDoc :=
  { id := id, name := name, buffer := buffer,
    pageCount := buffer.length, pages := initPages buffer.length }

/-- Model of handleRotate (src/src/App.tsx, lines 128 to 160): collect the
selection keys that start with the active document id, parse a page index
from each with jsKeyIdx, rotate those pages in the buffer, and bump the
model rotation of every page whose position occurs among the parsed
indices. Early return (unchanged state) when the selection is empty;
pageCount is not touched. Thumbnail regeneration is not modelled. -/
def handleRotate (d : AppDoc) (selected : List (List Char)) (degrees : Int) : AppDoc :=
  if selected.isEmpty then d
  else
    let pageIndices := (selected.filter (fun key => startsWithC d.id key)).map jsKeyIdx
    let newBuffer := rotatePages d.buffer pageIndices degrees
    { d with buffer := newBuffer,
             pages := mapWithIdx
               (fun i p =>
                 if pageIndices.contains (some (i : Int))
                 then { p with rotation := p.rotation + degrees } else p)
               d.pages }

/-- The pageIndicesToDelete array of handleDeletePages: one parsed index
per selection key of the active document. -/
def delIndices (d : AppDoc) (selected : List (List Char)) : List (Option Int) :=
  (selected.filter (fun key => startsWithC d.id key)).map jsKeyIdx

/-- The remainingIndices array of handleDeletePages: the positions of
d.pages whose index occurs in no parsed delete index. -/
def delRemaining (d : AppDoc) (selected : List (List Char)) : List Nat :=
  (List.range d.pages.length).filter
    (fun i => !((delIndices d selected).contains (some (Int.ofNat i))))

/-- Model of handleDeletePages (src/src/App.tsx, lines 247 to 291): parse
a delete index from each selection key of the active document; reject
(none, state untouched) when the selection is empty or when the number of
such keys equals the page count; otherwise keep the pages whose position
occurs in no parsed index, rebuild the buffer with extractPages, and
install buffer, page count and fresh page metadata together. A codec
failure is caught by the source and leaves the state untouched (none). -/
def handleDeletePages (d : AppDoc) (selected : List (List Char)) : Option AppDoc :=
  if selected.isEmpty then none
  else if (delIndices d selected).length = d.pageCount then none
  else
    match extractPages d.buffer (delRemaining d selected) with
    | none => none
    | some buf =>
      some { d with buffer := buf, pageCount := (delRemaining d selected).length,
                    pages := initPages (delRemaining d selected).length }

/-- Model of JS Array.prototype.splice(t, 0, a): insert a before position
t, clamping t to the array length (append) when it is too large. -/
def insertIdxC (a : α) : Nat → List α → List α
  | 0, l => a :: l
  | _ + 1, [] => [a]
  | n + 1, x :: xs => x :: insertIdxC a n xs

/-- The permutation handleMovePage builds with two splices: remove the
element at fromIndex from [0..n), reinsert it before position toIndex.
Faithful for fromIndex < n, the only way the UI invokes it (the move
buttons exist only for in-range neighbours, src/src/App.tsx lines 1055
to 1082). -/
def movePerm (n fromIndex toIndex : Nat) : List Nat :=
  insertIdxC ((List.range n).getD fromIndex 0) toIndex ((List.range n).eraseIdx fromIndex)

/-- Model of handleMovePage (src/src/App.tsx, lines 294 to 326): no-op
(none, state untouched) when fromIndex = toIndex; otherwise rebuild the
buffer with reorderPages over the move permutation and install buffer and
fresh page metadata together; pageCount is not touched. -/
def handleMovePage (d : AppDoc) (fromIndex toIndex : Nat) : Option AppDoc :=
  if fromIndex = toIndex then none
  else
    match reorderPages d.buffer (movePerm d.pages.length fromIndex toIndex) with
    | none => none
    | some buf =>
      some { d with buffer := buf, pages := initPages d.pageCount }

/-- Model of applyCrop (src/src/App.tsx, lines 415 to 455): crop the page
at the active index in the buffer and install the new buffer together
with the page array (only thumbnails change there, which the model does
not carry); none when the crop fails, the source state staying untouched. -/
def applyCrop (d : AppDoc) (activePageIndex : Nat) (box : CropRect)
    (previewW previewH : ℚ) : Option AppDoc :=
  match cropPage d.buffer activePageIndex box previewW previewH with
  | none => none
  | some buf =>
    some { d with buffer := buf, pages := d.pages.map (fun p => p) }

/-- Model of saveAnnotations (src/src/App.tsx, lines 458 to 497): burn the
pending text of the active page into the buffer, then install the new
buffer together with a page array whose active page has its pending text
cleared; early return (none, state untouched) when there is no pending
text, and a codec failure is caught likewise. -/
def saveAnns (d : AppDoc) (activePageIndex : Nat) (anns : List TextA) : Option AppDoc :=
  if anns.isEmpty then none
  else
    match addTextToPage d.buffer activePageIndex anns with
    | none => none
    | some buf =>
      some { d with buffer := buf,
                    pages := mapWithIdx
                      (fun i p => if i = activePageIndex then { p with annots := [] } else p)
                      d.pages }

/-- The model invariant of spec section 3: the page array length equals
the stored page count, which equals the page count of the byte buffer. -/
def invDoc (d : AppDoc) : Prop :=
  d.pages.length = d.pageCount ∧ d.pageCount = d.buffer.length

instance : Decidable (invDoc d) := by
  unfold invDoc; infer_instance

/-! Concrete scenario data used by the evaluations below. -/

/-- A letter-size page with no rotation, crop box or drawn text. -/
def pgStd : Page := ⟨0, 612, 792, none, []⟩

/-- A document id of the shape crypto.randomUUID() produces: per RFC 4122
every such id contains exactly four hyphens. -/
def uuidDocId : List Char := "123e4567-e89b-12d3-a456-426614174000".data

/-- The ten-page document of the spec scenario, freshly uploaded. -/
def rotDoc10 : AppDoc := uploadDoc uuidDocId ("report".data) (List.replicate 10 pgStd)

/-- The selection keys for 0-based pages 2 and 4 of rotDoc10, exactly as
togglePageSelection builds them (documentId, a hyphen, the page index). -/
def rotSel : List (List Char) :=
  ["123e4567-e89b-12d3-a456-426614174000-2".data,
   "123e4567-e89b-12d3-a456-426614174000-4".data]

/-- A three-page document carrying the same UUID-shaped id. -/
def delDoc3 : AppDoc := uploadDoc uuidDocId ("report".data) (List.replicate 3 pgStd)

/-- The selection key for 0-based page 0 of delDoc3. -/
def delSel : List (List Char) := ["123e4567-e89b-12d3-a456-426614174000-0".data]

/-- A small two-page document with a hyphen-free id, for the invariant
witnesses. -/
def wDoc : AppDoc := uploadDoc ("d".data) ("n".data) [pgStd, pgStd]

/-- A pending text annotation with a well-formed hex color. -/
def wAnn : TextA := ⟨"hi".data, 5, 7, 16, "#102030".data⟩

/-- Two equal pages, the rotation-accumulation witness buffer. -/
def w9pages : List Page := [pgStd, pgStd]

/-- An index list that names page 1 twice, one out-of-range index and one
NaN entry. -/
def w9idxs : List (Option Int) := [some 1, some 1, some 5, none]

/-! Lemmas about the range-rule parser. -/

lemma pmrGo_eq_filterMap (maxPage : Int) :
    ∀ (parts : List (List Char)) (acc : List MergeRule),
      pmrGo maxPage parts acc = acc ++ parts.filterMap (ruleOfToken maxPage) := by
  intro parts
  induction parts with
  | nil => intro acc; simp [pmrGo]
  | cons part rest ih =>
    intro acc
    rw [pmrGo, ih, List.filterMap_cons]
    cases ruleOfToken maxPage part <;> simp [Option.toList]

lemma ruleOfToken_bounds {maxPage : Int} {part : List Char} {r : MergeRule}
    (h : ruleOfToken maxPage part = some r) :
    0 ≤ r.start ∧ r.start ≤ r.stop ∧ r.stop < maxPage := by
  unfold ruleOfToken at h
  split at h
  · generalize (parseIntJS (((splitOnC '-' part).map trimC).getD 0 [])).map
      (fun n => n - 1) = oa at h
    generalize (parseIntJS (((splitOnC '-' part).map trimC).getD 1 [])).map
      (fun n => n - 1) = ob at h
    rcases oa with _ | a
    · rcases ob with _ | b
      · exact Option.noConfusion h
      · exact Option.noConfusion h
    · rcases ob with _ | b
      · exact Option.noConfusion h
      · change (if 0 ≤ a ∧ b < maxPage ∧ a ≤ b
            then some (MergeRule.mk a b) else none) = some r at h
        split at h
        · rename_i hcond
          cases h
          exact ⟨hcond.1, hcond.2.2, hcond.2.1⟩
        · exact Option.noConfusion h
  · generalize (parseIntJS part).map (fun n => n - 1) = oa at h
    rcases oa with _ | a
    · exact Option.noConfusion h
    · change (if 0 ≤ a ∧ a < maxPage
          then some (MergeRule.mk a a) else none) = some r at h
      split at h
      · rename_i hcond
        cases h
        exact ⟨hcond.1, le_refl _, hcond.2⟩
      · exact Option.noConfusion h

/-! Lemmas about parseIntJS on digit-headed strings. -/

lemma digit_ne_dash {c : Char} (h : c.isDigit = true) : c ≠ '-' :=
  fun he => absurd (he ▸ h) (by decide)

lemma digit_ne_plus {c : Char} (h : c.isDigit = true) : c ≠ '+' :=
  fun he => absurd (he ▸ h) (by decide)

lemma not_ws_of_digit {c : Char} (h : c.isDigit = true) : isWsChar c = false := by
  have h1 : c ≠ ' ' := fun he => absurd (he ▸ h) (by decide)
  have h2 : c ≠ '\t' := fun he => absurd (he ▸ h) (by decide)
  have h3 : c ≠ '\n' := fun he => absurd (he ▸ h) (by decide)
  have h4 : c ≠ '\r' := fun he => absurd (he ▸ h) (by decide)
  simp [isWsChar, h1, h2, h3, h4]

lemma takeWhile_all_app {p : Char → Bool} :
    ∀ (ds t : List Char), (∀ c ∈ ds, p c = true) →
      (t.head?.all (fun c => !p c) = true) →
      (ds ++ t).takeWhile p = ds := by
  intro ds
  induction ds with
  | nil =>
    intro t _ ht
    cases t with
    | nil => rfl
    | cons c ts =>
      have hpc : p c = false := by
        simp only [Option.all, List.head?] at ht
        cases hpc2 : p c
        · rfl
        · rw [hpc2] at ht
          exact absurd ht (by decide)
      simp [List.takeWhile_cons, hpc]
  | cons d ds2 ih =>
    intro t hall ht
    rw [List.cons_append, List.takeWhile_cons]
    simp [hall d (by simp), ih t (fun c hc => hall c (by simp [hc])) ht]

lemma parseIntJS_digits_app (ds t : List Char) (hne : ds ≠ [])
    (hall : ∀ c ∈ ds, c.isDigit = true)
    (ht : t.head?.all (fun c => !c.isDigit) = true) :
    parseIntJS (ds ++ t) = parseIntJS ds := by
  obtain ⟨d, ds2, rfl⟩ := List.exists_cons_of_ne_nil hne
  have hd : d.isDigit = true := hall d (by simp)
  have hws : isWsChar d = false := not_ws_of_digit hd
  unfold parseIntJS
  rw [List.cons_append]
  simp only [List.dropWhile_cons, hws, Bool.false_eq_true, if_false,
    if_neg (digit_ne_dash hd), if_neg (digit_ne_plus hd)]
  congr 1
  unfold parseDigitsPart
  have h1 : (d :: ds2 ++ t).takeWhile (fun c => c.isDigit) = d :: ds2 :=
    takeWhile_all_app (d :: ds2) t hall ht
  have h2 : (d :: ds2).takeWhile (fun c => c.isDigit) = d :: ds2 := by
    have := takeWhile_all_app (d :: ds2) [] hall (by simp [Option.all])
    simpa using this
  rw [List.cons_append] at h1
  rw [h1, h2]

/-! Lemmas about page rotation. -/

lemma rotAt_length (d : Int) : ∀ (n : Nat) (l : List Page),
    (rotAt d n l).length = l.length := by
  intro n l
  induction l generalizing n with
  | nil => cases n <;> rfl
  | cons p ps ih =>
    cases n with
    | zero => rfl
    | succ m => simp [rotAt, ih]

lemma rotAt_getD_self (d : Int) (p0 : Page) :
    ∀ (n : Nat) (l : List Page), n < l.length →
      ((rotAt d n l).getD n p0).rotation = (l.getD n p0).rotation + d := by
  intro n l
  induction l generalizing n with
  | nil => intro h; exact absurd h (by simp)
  | cons p ps ih =>
    cases n with
    | zero => intro _; rfl
    | succ m =>
      intro h
      simp only [rotAt, List.getD_cons_succ]
      exact ih m (by simpa using h)

lemma rotAt_getD_ne (d : Int) (p0 : Page) :
    ∀ {j n : Nat}, j ≠ n → ∀ (l : List Page),
      (rotAt d n l).getD j p0 = l.getD j p0 := by
  intro j n hne l
  induction l generalizing j n with
  | nil => cases n <;> rfl
  | cons p ps ih =>
    cases n with
    | zero =>
      cases j with
      | zero => exact absurd rfl hne
      | succ j2 => rfl
    | succ m =>
      cases j with
      | zero => rfl
      | succ j2 =>
        simp only [rotAt, List.getD_cons_succ]
        exact ih (fun he => hne (by simp [he])) 

lemma rotGo_length (len : Nat) (d : Int) :
    ∀ (idxs : List (Option Int)) (pgs : List Page),
      (rotGo len d idxs pgs).length = pgs.length := by
  intro idxs
  induction idxs with
  | nil => intro pgs; rfl
  | cons oi rest ih =>
    intro pgs
    cases oi with
    | none => simpa [rotGo] using ih pgs
    | some i =>
      by_cases hv : 0 ≤ i ∧ i < (len : Int)
      · simp only [rotGo, if_pos hv]
        rw [ih, rotAt_length]
      · simp only [rotGo, if_neg hv]
        exact ih pgs

lemma rotGo_getD (len : Nat) (d : Int) (p0 : Page) :
    ∀ (idxs : List (Option Int)) (pgs : List Page), pgs.length = len →
      ∀ (j : Nat), j < len →
      ((rotGo len d idxs pgs).getD j p0).rotation
        = (pgs.getD j p0).rotation + (idxs.count (some (j : Int))) * d := by
  intro idxs
  induction idxs with
  | nil =>
    intro pgs _ j _
    simp [rotGo, List.count_nil]
  | cons oi rest ih =>
    intro pgs hlen j hj
    cases oi with
    | none =>
      have hc : (none :: rest).count (some (j : Int)) = rest.count (some (j : Int)) := by
        simp [List.count_cons]
      rw [hc]
      exact ih pgs hlen j hj
    | some i =>
      by_cases hv : 0 ≤ i ∧ i < (len : Int)
      · by_cases hij : i = (j : Int)
        · have hnat : i.toNat = j := by omega
          have hc : (some i :: rest).count (some (j : Int))
              = rest.count (some (j : Int)) + 1 := by
            simp [List.count_cons, hij]
          rw [hc]
          simp only [rotGo, if_pos hv]
          rw [ih (rotAt d i.toNat pgs) (by rw [rotAt_length]; exact hlen) j hj]
          rw [hnat, rotAt_getD_self d p0 j pgs (by omega)]
          push_cast
          ring
        · have hnat : i.toNat ≠ j := by omega
          have hc : (some i :: rest).count (some (j : Int))
              = rest.count (some (j : Int)) := by
            simp [List.count_cons, hij]
          rw [hc]
          simp only [rotGo, if_pos hv]
          rw [ih (rotAt d i.toNat pgs) (by rw [rotAt_length]; exact hlen) j hj]
          rw [rotAt_getD_ne d p0 (fun he => hnat he.symm) pgs]
      · have hij : i ≠ (j : Int) := by omega
        have hc : (some i :: rest).count (some (j : Int))
            = rest.count (some (j : Int)) := by
          simp [List.count_cons, hij]
        rw [hc]
        simp only [rotGo, if_neg hv]
        exact ih pgs hlen j hj

/-! Lemmas about mapMO (the model of copyPages). -/

lemma mapMO_length {f : α → Option β} :
    ∀ {l : List α} {out : List β}, mapMO f l = some out → out.length = l.length := by
  intro l
  induction l with
  | nil =>
    intro out h
    unfold mapMO at h
    cases h
    rfl
  | cons a l2 ih =>
    intro out h
    unfold mapMO at h
    cases hfa : f a with
    | none =>
      rw [hfa] at h
      cases hml : mapMO f l2 <;> rw [hml] at h <;> exact Option.noConfusion h
    | some b =>
      rw [hfa] at h
      cases hml : mapMO f l2 with
      | none =>
        rw [hml] at h
        exact Option.noConfusion h
      | some bs =>
        rw [hml] at h
        cases h
        simp [ih hml]

lemma mapMO_isSome {f : α → Option β} :
    ∀ (l : List α), (∀ a ∈ l, (f a).isSome) →
      ∃ out, mapMO f l = some out ∧ out.length = l.length := by
  intro l
  induction l with
  | nil => intro _; exact ⟨[], rfl, rfl⟩
  | cons a l2 ih =>
    intro hall
    obtain ⟨b, hb⟩ := Option.isSome_iff_exists.mp (hall a (by simp))
    obtain ⟨out, hout, hlen⟩ := ih (fun x hx => hall x (by simp [hx]))
    refine ⟨b :: out, ?_, by simp [hlen]⟩
    unfold mapMO
    rw [hb, hout]

lemma mapMO_get_range' :
    ∀ (l2 l1 : List Page),
      mapMO (fun i => (l1 ++ l2).get? i) (List.range' l1.length l2.length) = some l2 := by
  intro l2
  induction l2 with
  | nil => intro l1; rfl
  | cons a l2 ih =>
    intro l1
    have hr : List.range' l1.length (a :: l2).length
        = l1.length :: List.range' (l1.length + 1) l2.length := rfl
    rw [hr]
    unfold mapMO
    have hget : (l1 ++ a :: l2).get? l1.length = some a := by
      rw [List.get?_eq_getElem?, List.getElem?_append_right (le_refl _)]
      simp
    rw [hget]
    have htail := ih (l1 ++ [a])
    rw [List.append_assoc] at htail
    simp only [List.singleton_append, List.length_append, List.length_singleton] at htail
    rw [htail]

lemma mapMO_get_range (l : List Page) :
    mapMO (fun i => l.get? i) (List.range l.length) = some l := by
  have := mapMO_get_range' l []
  simpa [List.range_eq_range'] using this

/-! Length and membership lemmas for the App-level model. -/

lemma initPages_length (n : Nat) : (initPages n).length = n := by
  simp [initPages]

lemma mapIdxGo_length (f : Nat → α → β) :
    ∀ (n : Nat) (l : List α), (mapIdxGo f n l).length = l.length := by
  intro n l
  induction l generalizing n with
  | nil => rfl
  | cons a l2 ih => simp [mapIdxGo, ih]

lemma mapWithIdx_length (f : Nat → α → β) (l : List α) :
    (mapWithIdx f l).length = l.length :=
  mapIdxGo_length f 0 l

lemma setCropAt_length (box : CropRect) :
    ∀ (n : Nat) (l : List Page), (setCropAt box n l).length = l.length := by
  intro n l
  induction l generalizing n with
  | nil => cases n <;> rfl
  | cons p ps ih =>
    cases n with
    | zero => rfl
    | succ m => simp [setCropAt, ih]

lemma addTextsAt_length (ts : List DrawnText) :
    ∀ (n : Nat) (l : List Page), (addTextsAt ts n l).length = l.length := by
  intro n l
  induction l generalizing n with
  | nil => cases n <;> rfl
  | cons p ps ih =>
    cases n with
    | zero => rfl
    | succ m => simp [addTextsAt, ih]

lemma insertIdxC_length (a : α) :
    ∀ (n : Nat) (l : List α), (insertIdxC a n l).length = l.length + 1 := by
  intro n l
  induction l generalizing n with
  | nil => cases n <;> rfl
  | cons x xs ih =>
    cases n with
    | zero => rfl
    | succ m => simp [insertIdxC, ih]

lemma mem_insertIdxC {a x : α} :
    ∀ {n : Nat} {l : List α}, x ∈ insertIdxC a n l → x = a ∨ x ∈ l := by
  intro n l
  induction l generalizing n with
  | nil =>
    cases n with
    | zero =>
      intro h
      simp only [insertIdxC] at h
      exact Or.inl (by simpa using h)
    | succ m =>
      intro h
      simp only [insertIdxC] at h
      exact Or.inl (by simpa using h)
  | cons y ys ih =>
    cases n with
    | zero =>
      intro h
      rcases List.mem_cons.mp h with h1 | h1
      · exact Or.inl h1
      · exact Or.inr h1
    | succ m =>
      intro h
      rcases List.mem_cons.mp h with h1 | h1
      · exact Or.inr (by simp [h1])
      · rcases ih h1 with h2 | h2
        · exact Or.inl h2
        · exact Or.inr (by simp [h2])

lemma length_eraseIdx_lt :
    ∀ (l : List α) (n : Nat), n < l.length → (l.eraseIdx n).length = l.length - 1 := by
  intro l
  induction l with
  | nil => intro n h; exact absurd h (by simp)
  | cons a l2 ih =>
    intro n h
    cases n with
    | zero => simp [List.eraseIdx]
    | succ m =>
      simp only [List.length_cons] at h
      have hm : m < l2.length := by omega
      have := ih m hm
      simp only [List.eraseIdx, List.length_cons, this]
      omega

lemma mem_of_mem_eraseIdx {x : α} :
    ∀ {l : List α} {n : Nat}, x ∈ l.eraseIdx n → x ∈ l := by
  intro l
  induction l with
  | nil => intro n h; simp [List.eraseIdx] at h
  | cons a l2 ih =>
    intro n h
    cases n with
    | zero => exact List.mem_cons.mpr (Or.inr h)
    | succ m =>
      rcases List.mem_cons.mp h with h1 | h1
      · exact List.mem_cons.mpr (Or.inl h1)
      · exact List.mem_cons.mpr (Or.inr (ih h1))

lemma movePerm_length {n f t : Nat} (hf : f < n) (ht : t < n) :
    (movePerm n f t).length = n := by
  unfold movePerm
  rw [insertIdxC_length, length_eraseIdx_lt _ _ (by simpa using hf)]
  simp only [List.length_range]
  omega

lemma movePerm_mem {n f t x : Nat} (hf : f < n) (hx : x ∈ movePerm n f t) : x < n := by
  unfold movePerm at hx
  rcases mem_insertIdxC hx with h1 | h1
  · have : (List.range n).getD f 0 = f := by
      rw [List.getD, List.get?_eq_getElem?]
      simp [List.getElem?_range hf]
    rw [this] at h1
    omega
  · exact List.mem_range.mp (mem_of_mem_eraseIdx h1)

lemma cropPage_some_length {pages : List Page} {i : Nat} {box : CropRect} {pw ph : ℚ}
    {out : List Page} (h : cropPage pages i box pw ph = some out) :
    out.length = pages.length := by
  unfold cropPage at h
  cases hg : pages.get? i with
  | none => rw [hg] at h; exact Option.noConfusion h
  | some page =>
    rw [hg] at h
    cases h
    exact setCropAt_length _ _ _

lemma addTextToPage_some_length {pages : List Page} {i : Nat} {anns : List TextA}
    {out : List Page} (h : addTextToPage pages i anns = some out) :
    out.length = pages.length := by
  unfold addTextToPage at h
  cases hg : pages.get? i with
  | none => rw [hg] at h; exact Option.noConfusion h
  | some page =>
    rw [hg] at h
    change (mapMO (burnOne page.height) anns).map
      (fun ds => addTextsAt ds i pages) = some out at h
    cases hm : mapMO (burnOne page.height) anns with
    | none => rw [hm] at h; exact Option.noConfusion h
    | some ds =>
      rw [hm] at h
      cases h
      exact addTextsAt_length _ _ _

/-! Lemmas about splitPDF ranges. -/

lemma intRange_length (a b : Int) : (intRange a b).length = (b + 1 - a).toNat := by
  unfold intRange
  rw [List.length_map, List.length_range]

lemma mem_intRange {a b x : Int} (h : x ∈ intRange a b) : a ≤ x ∧ x ≤ b := by
  unfold intRange at h
  simp only [List.mem_map, List.mem_range] at h
  obtain ⟨k, hk, rfl⟩ := h
  omega

lemma getAtInt_isSome {pages : List Page} {x : Int}
    (h0 : 0 ≤ x) (hl : x < (pages.length : Int)) : (getAtInt pages x).isSome := by
  unfold getAtInt
  rw [if_neg (by omega)]
  have hx : x.toNat < pages.length := by omega
  rw [List.get?_eq_getElem?]
  simp [List.getElem?_eq_getElem hx]

lemma splitPDF_count :
    ∀ (rules : List MergeRule) (pages : List Page),
      (∀ r ∈ rules, 0 ≤ r.start ∧ r.stop < (pages.length : Int)) →
      (splitPDF pages rules).map (fun bufs => (mergePDFs bufs).length)
        = some ((rules.map (fun r => (r.stop + 1 - r.start).toNat)).sum) := by
  intro rules
  induction rules with
  | nil => intro pages _; rfl
  | cons r rest ih =>
    intro pages hb
    have hr := hb r (by simp)
    obtain ⟨buf, hbuf, hblen⟩ :
        ∃ buf, mapMO (getAtInt pages) (intRange r.start r.stop) = some buf ∧
          buf.length = (intRange r.start r.stop).length := by
      apply mapMO_isSome
      intro x hx
      have hm := mem_intRange hx
      exact getAtInt_isSome (le_trans hr.1 hm.1) (lt_of_le_of_lt hm.2 hr.2)
    have hrest := ih pages (fun r2 h2 => hb r2 (by simp [h2]))
    cases hsp : splitPDF pages rest with
    | none =>
      rw [hsp] at hrest
      exact absurd hrest (by simp)
    | some bufs =>
      rw [hsp] at hrest
      have he : (mergePDFs bufs).length
          = (rest.map (fun r2 => (r2.stop + 1 - r2.start).toNat)).sum :=
        Option.some.inj hrest
      have hsp2 : mapMO (fun r2 : MergeRule =>
          mapMO (getAtInt pages) (intRange r2.start r2.stop)) rest = some bufs := hsp
      have hsplit : splitPDF pages (r :: rest) = some (buf :: bufs) := by
        show mapMO (fun r2 : MergeRule =>
          mapMO (getAtInt pages) (intRange r2.start r2.stop)) (r :: rest) = some (buf :: bufs)
        simp only [mapMO]
        rw [hbuf, hsp2]
      rw [hsplit]
      simp only [Option.map_some', Option.some.injEq, List.map_cons, List.sum_cons]
      have hm : mergePDFs (buf :: bufs) = buf ++ mergePDFs bufs := rfl
      rw [hm, List.length_append, he, hblen, intRange_length]

/-! Claim theorems. -/

/-- C1: evaluation of the spec's rotate scenario on the code as written.
A ten-page document whose id has the crypto.randomUUID shape is uploaded,
pages 2 and 4 (0-based) are selected and rotate 90 is invoked.
handleRotate parses the page index as key.split('-')[1], which on a
UUID-keyed selection key is the second UUID segment, so parseInt yields
NaN: no page of the buffer is rotated and every model rotation stays 0,
against the claimed rotation 90 at indices 2 and 4 (pageCount does stay
10, as claimed). -/
theorem claim_C1_rotate_scenario :
    (handleRotate rotDoc10 rotSel 90).pages.map (fun p => p.rotation)
        = List.replicate 10 0 ∧
    (handleRotate rotDoc10 rotSel 90).buffer.map (fun p => p.rotation)
        = List.replicate 10 0 ∧
    (handleRotate rotDoc10 rotSel 90).pageCount = 10 := by
  refine ⟨by decide, by decide, by decide⟩

/-- C2: evaluation of subset deletion on the code as written. On a
three-page document with a UUID-shaped id and page 0 selected,
handleDeletePages parses the delete index from key.split('-')[1] (a UUID
segment, hence NaN), so remainingIndices keeps every page: the operation
succeeds but returns the document with all 3 pages and the original
buffer, against the claimed pageCount - 1 = 2. -/
theorem claim_C2_delete_subset_eval :
    (handleDeletePages delDoc3 delSel).map (fun d => (d.pageCount, d.buffer))
      = some (3, delDoc3.buffer) := by
  decide

/-- C3: every rule returned by parseMergeRules satisfies
0 <= start <= stop < maxPage, and the spec example
parseMergeRules "1-2,3,4-9,10" 10 returns exactly the four expected
zero-based rules. -/
theorem claim_C3_parse_bounds :
    (∀ (input : List Char) (maxPage : Int) (r : MergeRule),
        r ∈ parseMergeRules input maxPage →
        0 ≤ r.start ∧ r.start ≤ r.stop ∧ r.stop < maxPage) ∧
    parseMergeRules ("1-2,3,4-9,10".data) 10
      = [⟨0, 1⟩, ⟨2, 2⟩, ⟨3, 8⟩, ⟨9, 9⟩] := by
  constructor
  · intro input maxPage r hr
    rw [parseMergeRules, pmrGo_eq_filterMap] at hr
    simp only [List.nil_append] at hr
    obtain ⟨part, hpart, hro⟩ := List.mem_filterMap.mp hr
    exact ruleOfToken_bounds hro
  · decide

/-- Witness for C3 at the concrete rule (0,1) from the token 1-2. -/
theorem claim_C3_parse_bounds_witness :
    0 ≤ (MergeRule.mk 0 1).start ∧ (MergeRule.mk 0 1).start ≤ (MergeRule.mk 0 1).stop ∧
      (MergeRule.mk 0 1).stop < 10 :=
  claim_C3_parse_bounds.1 ("1-2".data) 10 (MergeRule.mk 0 1) (by decide)

/-- C4 counterexample: split with the single in-bounds rule (0,0) on a
two-page document followed by merge yields one page, not the source's
two, so split-then-merge does not preserve the source page count for
every rule list. -/
theorem claim_C4_split_merge_counterexample :
    splitPDF [pgStd, pgStd] [⟨0, 0⟩] = some [[pgStd]] ∧
    (mergePDFs [[pgStd]]).length ≠ ([pgStd, pgStd] : List Page).length := by
  refine ⟨by decide, by decide⟩

/-- C4 (amended): for in-bounds rules, split followed by merge of the
resulting buffers in order yields a document whose page count is the sum
over the rules of (stop - start + 1); it equals the source page count
exactly when that sum does (for instance for the default one-rule-per-page
split). -/
theorem claim_C4_split_merge_pagecount :
    ∀ (pages : List Page) (rules : List MergeRule),
      (∀ r ∈ rules, 0 ≤ r.start ∧ r.stop < (pages.length : Int)) →
      (splitPDF pages rules).map (fun bufs => (mergePDFs bufs).length)
        = some ((rules.map (fun r => (r.stop + 1 - r.start).toNat)).sum) :=
  fun pages rules h => splitPDF_count rules pages h

/-- Witness for C4 at a two-page document and the single rule (0,1). -/
theorem claim_C4_split_merge_pagecount_witness :
    (splitPDF [pgStd, pgStd] [⟨0, 1⟩]).map (fun bufs => (mergePDFs bufs).length)
      = some ((([⟨0, 1⟩] : List MergeRule).map
          (fun r => (r.stop + 1 - r.start).toNat)).sum) :=
  claim_C4_split_merge_pagecount [pgStd, pgStd] [⟨0, 1⟩] (by decide)

/-- C5: cropPage maps the preview rectangle exactly as the spec formula
cropMapSpec states (scaleX = pageW/previewW, scaleY = pageH/previewH,
pdfY = pageH - (y+h)*scaleY), and for positive preview dimensions the
full-preview rectangle maps exactly to the full PDF page box. -/
theorem claim_C5_crop_mapping :
    (∀ (pages : List Page) (i : Nat) (box : CropRect) (pw ph : ℚ) (page : Page),
        pages.get? i = some page →
        cropPage pages i box pw ph
          = some (setCropAt (cropMapSpec page.width page.height pw ph box) i pages)) ∧
    (∀ (pageW pageH pw ph : ℚ), 0 < pw → 0 < ph →
        cropMapSpec pageW pageH pw ph ⟨0, 0, pw, ph⟩ = ⟨0, 0, pageW, pageH⟩) := by
  constructor
  · intro pages i box pw ph page hget
    unfold cropPage
    rw [hget]
    rfl
  · intro pageW pageH pw ph hpw hph
    have h1 : pw ≠ 0 := ne_of_gt hpw
    have h2 : ph ≠ 0 := ne_of_gt hph
    unfold cropMapSpec
    have hx : (0 : ℚ) * (pageW / pw) = 0 := by ring
    have hy : pageH - ((0 : ℚ) + ph) * (pageH / ph) = 0 := by
      field_simp
    have hw : pw * (pageW / pw) = pageW := by
      field_simp
    have hh : ph * (pageH / ph) = pageH := by
      field_simp
    rw [hx, hy, hw, hh]

/-- Witness for C5 on a one-page document with preview size 2 by 3. -/
theorem claim_C5_crop_mapping_witness :
    cropPage [pgStd] 0 ⟨0, 0, 2, 3⟩ 2 3
      = some (setCropAt (cropMapSpec pgStd.width pgStd.height 2 3 ⟨0, 0, 2, 3⟩) 0 [pgStd]) ∧
    cropMapSpec 612 792 2 3 ⟨0, 0, 2, 3⟩ = ⟨0, 0, 612, 792⟩ :=
  ⟨claim_C5_crop_mapping.1 [pgStd] 0 ⟨0, 0, 2, 3⟩ 2 3 pgStd rfl,
   claim_C5_crop_mapping.2 612 792 2 3 (by norm_num) (by norm_num)⟩

/-- C6: reorderPages and extractPages are the same function on the model
(their source bodies are identical), and reordering by the identity
permutation returns the document unchanged, hence with the same page
count and page order. -/
theorem claim_C6_reorder_is_extract :
    (∀ (buffer : List Page) (newOrder : List Nat),
        reorderPages buffer newOrder = extractPages buffer newOrder) ∧
    (∀ doc : List Page, reorderPages doc (List.range doc.length) = some doc) :=
  ⟨fun _ _ => rfl, fun doc => mapMO_get_range doc⟩

/-- C7: the synchronizer invariant pages.length = pageCount = buffer page
count is preserved by every modelled mutation (upload, rotate, delete,
move, crop, text burn-in); each handler installs buffer and page array in
one state value, and a failed or rejected handler leaves the state
unchanged (the getD d reading). -/
theorem claim_C7_model_sync_invariant :
    (∀ (docId docName : List Char) (buffer : List Page),
        invDoc (uploadDoc docId docName buffer)) ∧
    (∀ (d : AppDoc) (sel : List (List Char)) (deg : Int),
        invDoc d → invDoc (handleRotate d sel deg)) ∧
    (∀ (d : AppDoc) (sel : List (List Char)),
        invDoc d → invDoc ((handleDeletePages d sel).getD d)) ∧
    (∀ (d : AppDoc) (f t : Nat),
        invDoc d → f < d.pageCount → t < d.pageCount →
        invDoc ((handleMovePage d f t).getD d)) ∧
    (∀ (d : AppDoc) (i : Nat) (box : CropRect) (pw ph : ℚ),
        invDoc d → invDoc ((applyCrop d i box pw ph).getD d)) ∧
    (∀ (d : AppDoc) (i : Nat) (anns : List TextA),
        invDoc d → invDoc ((saveAnns d i anns).getD d)) := by
  refine ⟨?_, ?_, ?_, ?_, ?_, ?_⟩
  · intro docId docName buffer
    exact ⟨by simp [uploadDoc, initPages_length], rfl⟩
  · intro d sel deg hinv
    unfold handleRotate
    split
    · exact hinv
    · constructor
      · show (mapWithIdx _ d.pages).length = d.pageCount
        rw [mapWithIdx_length]
        exact hinv.1
      · show d.pageCount = (rotatePages d.buffer _ deg).length
        unfold rotatePages
        rw [rotGo_length]
        exact hinv.2
  · intro d sel hinv
    cases hres : handleDeletePages d sel with
    | none => simp only [Option.getD_none]; exact hinv
    | some d2 =>
      simp only [Option.getD_some]
      unfold handleDeletePages at hres
      by_cases h1 : sel.isEmpty
      · rw [if_pos h1] at hres
        exact Option.noConfusion hres
      · rw [if_neg h1] at hres
        by_cases h2 : (delIndices d sel).length = d.pageCount
        · rw [if_pos h2] at hres
          exact Option.noConfusion hres
        · rw [if_neg h2] at hres
          cases hex : extractPages d.buffer (delRemaining d sel) with
          | none => rw [hex] at hres; exact Option.noConfusion hres
          | some buf =>
            rw [hex] at hres
            cases hres
            refine ⟨?_, ?_⟩
            · show (initPages (delRemaining d sel).length).length
                = (delRemaining d sel).length
              exact initPages_length _
            · show (delRemaining d sel).length = buf.length
              exact (mapMO_length hex).symm
  · intro d f t hinv hf ht
    cases hres : handleMovePage d f t with
    | none => simp only [Option.getD_none]; exact hinv
    | some d2 =>
      simp only [Option.getD_some]
      unfold handleMovePage at hres
      by_cases h1 : f = t
      · rw [if_pos h1] at hres
        exact Option.noConfusion hres
      · rw [if_neg h1] at hres
        cases hro : reorderPages d.buffer (movePerm d.pages.length f t) with
        | none => rw [hro] at hres; exact Option.noConfusion hres
        | some buf =>
          rw [hro] at hres
          cases hres
          have hn : d.pages.length = d.pageCount := hinv.1
          refine ⟨?_, ?_⟩
          · show (initPages d.pageCount).length = d.pageCount
            exact initPages_length _
          · show d.pageCount = buf.length
            rw [mapMO_length hro,
              movePerm_length (show f < d.pages.length by omega)
                (show t < d.pages.length by omega), hn]
  · intro d i box pw ph hinv
    cases hres : applyCrop d i box pw ph with
    | none => simp only [Option.getD_none]; exact hinv
    | some d2 =>
      simp only [Option.getD_some]
      unfold applyCrop at hres
      cases hcp : cropPage d.buffer i box pw ph with
      | none => rw [hcp] at hres; exact Option.noConfusion hres
      | some buf =>
        rw [hcp] at hres
        cases hres
        refine ⟨?_, ?_⟩
        · show (d.pages.map (fun p => p)).length = d.pageCount
          rw [List.length_map]
          exact hinv.1
        · show d.pageCount = buf.length
          rw [cropPage_some_length hcp]
          exact hinv.2
  · intro d i anns hinv
    cases hres : saveAnns d i anns with
    | none => simp only [Option.getD_none]; exact hinv
    | some d2 =>
      simp only [Option.getD_some]
      unfold saveAnns at hres
      by_cases h1 : anns.isEmpty
      · rw [if_pos h1] at hres
        exact Option.noConfusion hres
      · rw [if_neg h1] at hres
        cases hat : addTextToPage d.buffer i anns with
        | none => rw [hat] at hres; exact Option.noConfusion hres
        | some buf =>
          rw [hat] at hres
          cases hres
          refine ⟨?_, ?_⟩
          · show (mapWithIdx _ d.pages).length = d.pageCount
            rw [mapWithIdx_length]
            exact hinv.1
          · show d.pageCount = buf.length
            rw [addTextToPage_some_length hat]
            exact hinv.2

/-- Witness for C7: each conjunct applied to a concrete two-page document
(rotate with a foreign key, delete with a foreign key, move 0 to 1, crop
page 0, burn one annotation into page 0). -/
theorem claim_C7_model_sync_invariant_witness :
    invDoc (uploadDoc ("d".data) ("n".data) [pgStd]) ∧
    invDoc (handleRotate wDoc [("x".data)] 90) ∧
    invDoc ((handleDeletePages wDoc [("x".data)]).getD wDoc) ∧
    invDoc ((handleMovePage wDoc 0 1).getD wDoc) ∧
    invDoc ((applyCrop wDoc 0 ⟨0, 0, 2, 3⟩ 2 3).getD wDoc) ∧
    invDoc ((saveAnns wDoc 0 [wAnn]).getD wDoc) :=
  ⟨claim_C7_model_sync_invariant.1 ("d".data) ("n".data) [pgStd],
   claim_C7_model_sync_invariant.2.1 wDoc [("x".data)] 90 (by decide),
   claim_C7_model_sync_invariant.2.2.1 wDoc [("x".data)] (by decide),
   claim_C7_model_sync_invariant.2.2.2.1 wDoc 0 1 (by decide) (by decide) (by decide),
   claim_C7_model_sync_invariant.2.2.2.2.1 wDoc 0 ⟨0, 0, 2, 3⟩ 2 3 (by decide),
   claim_C7_model_sync_invariant.2.2.2.2.2 wDoc 0 [wAnn] (by decide)⟩

/-- C8: parseMergeRules is total (the model is a plain function, no
exception path) and equals one filterMap over the comma-split, trimmed,
nonempty tokens: output order follows token order and each valid token
yields exactly one rule; duplicated tokens give duplicated rules and
overlapping ranges are not coalesced. -/
theorem claim_C8_parse_safety :
    (∀ (input : List Char) (maxPage : Int),
        parseMergeRules input maxPage
          = (((splitOnC ',' input).map trimC).filter (fun s => !s.isEmpty)).filterMap
              (ruleOfToken maxPage)) ∧
    parseMergeRules ("1,1".data) 5 = [⟨0, 0⟩, ⟨0, 0⟩] ∧
    parseMergeRules ("1-3,2-4".data) 10 = [⟨0, 2⟩, ⟨1, 3⟩] := by
  refine ⟨?_, by decide, by decide⟩
  intro input maxPage
  rw [parseMergeRules, pmrGo_eq_filterMap]
  simp

/-- C9: rotatePages preserves the page count, and the final rotation of
the page at any valid position j is its original rotation plus degrees
times the number of occurrences of j in the index list; occurrences
outside [0, pageCount), and NaN entries, contribute nothing (they are not
counted and touch no page). -/
theorem claim_C9_rotate_accumulates :
    ∀ (pages : List Page) (idxs : List (Option Int)) (deg : Int) (j : Nat) (p0 : Page),
      j < pages.length →
      (rotatePages pages idxs deg).length = pages.length ∧
      ((rotatePages pages idxs deg).getD j p0).rotation
        = (pages.getD j p0).rotation + (idxs.count (some (j : Int))) * deg := by
  intro pages idxs deg j p0 hj
  constructor
  · unfold rotatePages
    exact rotGo_length _ _ _ _
  · unfold rotatePages
    exact rotGo_getD pages.length deg p0 idxs pages rfl j hj

/-- Witness for C9: page 1 named twice plus one out-of-range and one NaN
entry accumulates two 90-degree turns. -/
theorem claim_C9_rotate_accumulates_witness :
    (rotatePages w9pages w9idxs 90).length = w9pages.length ∧
    ((rotatePages w9pages w9idxs 90).getD 1 pgStd).rotation
      = (w9pages.getD 1 pgStd).rotation + (w9idxs.count (some ((1 : Nat) : Int))) * 90 :=
  claim_C9_rotate_accumulates w9pages w9idxs 90 1 pgStd (by decide)

/-- C10: parseInt uses only the leading digit run of a token, so a token
with a valid integer prefix and non-numeric tail parses as the prefix
(and the example token 3abc yields the rule (2,2) at maxPage 3); a token
with more than one hyphen uses only its first two segments as bounds, the
rest being ignored (token 2-9-3 yields (1,8) at maxPage 10). -/
theorem claim_C10_parse_token_leniency :
    (∀ (ds t : List Char), ds ≠ [] → (∀ c ∈ ds, c.isDigit = true) →
        (t.head?.all (fun c => !c.isDigit) = true) →
        parseIntJS (ds ++ t) = parseIntJS ds) ∧
    parseMergeRules ("3abc".data) 3 = [⟨2, 2⟩] ∧
    parseMergeRules ("2-9-3".data) 10 = [⟨1, 8⟩] :=
  ⟨parseIntJS_digits_app, by decide, by decide⟩

/-- Witness for C10 on the token 12x. -/
theorem claim_C10_parse_token_leniency_witness :
    parseIntJS (("12".data) ++ ("x".data)) = parseIntJS ("12".data) :=
  claim_C10_parse_token_leniency.1 ("12".data) ("x".data) (by decide) (by decide) (by decide)
